import Mathlib

/-!
Verification of the shrimp RAG pipeline core.

This file gives a shallow embedding, in Lean 4, of the retrieval core of the
pipeline: record normalization (src/ingestion/data_loader.py), document
formatting, the vector-store wrapper (src/vectorstore/chroma_store.py),
embedding management (src/embeddings/embedding_manager.py), the retriever
(src/retrieval/retriever.py) and the prompt router
(src/generation/llm_client.py).  Python dictionaries are modelled as
insertion-ordered association lists, Python floats as rationals, numpy arrays
as lists, and fallible operations return Except.  External collaborators
(the sentence-transformer encoder, the ChromaDB index, the uuid generator)
are parameters of the definitions; the ChromaDB query itself is modelled
from the contract the spec assigns to it.
-/

namespace ShrimpRag

/-- Scalar values that can appear in a record or in metadata.  Per the data
model, record values are strings, numbers or null; the `other` constructor
carries the text rendering of a value of any other Python type (the argument
is the result of Python `str`). -/
inductive Val where
  | null : Val
  | str : String → Val
  | int : Int → Val
  | float : ℚ → Val
  | other : String → Val
deriving DecidableEq

/-- A Python dict with string keys, in insertion order. -/
abbrev Dict := List (String × Val)

/-- The key list of a dict, in insertion order. -/
def keys (m : Dict) : List String := m.map Prod.fst

/-- Python dict assignment `m[k] = v`: an existing key keeps its position and
gets the new value, a new key is appended at the end. -/
def dictSet (m : Dict) (k : String) (v : Val) : Dict :=
  match m with
  | [] => [(k, v)]
  | kv :: rest => if kv.1 = k then (k, v) :: rest else kv :: dictSet rest k v

/-- Values in the domain the data model assigns to records (string, number
or null); `other` is everything else. -/
def isScalar : Val → Bool
  | .other _ => false
  | _ => true

/-- Python `str.strip` on the character list: drop whitespace from both
ends. -/
def stripData (l : List Char) : List Char :=
  (l.dropWhile Char.isWhitespace).rdropWhile Char.isWhitespace

/-- Python `str.strip`. -/
def pyStrip (s : String) : String := ⟨stripData s.data⟩

/-- Python `str` rendering of a value, as used when a record value is
interpolated into text.  Numeric text rendering is abstracted by `toString`
on the Lean side. -/
def render : Val → String
  | .null => "None"
  | .str s => s
  | .int n => toString n
  | .float q => toString q
  | .other s => s

/-! ## Record normalizer (DataPreprocessor._clean_record, data_loader.py 111-138) -/

/-- Per-value cleaning step of `_clean_record`: null becomes the string
"N/A", strings are stripped, ints and floats are kept, any other value is
replaced by its `str` rendering. -/
def cleanVal : Val → Val
  | .null => .str "N/A"
  | .str s => .str (pyStrip s)
  | .int n => .int n
  | .float q => .float q
  | .other s => .str s

/-- `_clean_record`: iterate over the items of the record in order, strip
each key, clean each value, and assign into a fresh dict. -/
def cleanRecord (r : Dict) : Dict :=
  r.foldl (fun acc kv => dictSet acc (pyStrip kv.1) (cleanVal kv.2)) []

/-- An element of the raw input sequence handed to `preprocess_records`: a
well-formed record, or an item on which `_clean_record` raises (for example
a non-mapping element, whose missing `items` attribute raises inside the
try block). -/
inductive RawItem where
  | record (r : Dict)
  | bad (msg : String)

/-- Fallible view of `_clean_record` over a raw item: a well-formed record
is cleaned, a bad item raises. -/
def cleanRecordE : RawItem → Except String Dict
  | .record r => .ok (cleanRecord r)
  | .bad msg => .error msg

/-- `preprocess_records` (data_loader.py 87-109): clean each record in
order; a record whose cleaning raises is skipped (the exception is caught,
logged as a warning, and the loop continues). -/
def preprocess_records : List RawItem → List Dict
  | [] => []
  | item :: rest =>
    match cleanRecordE item with
    | .ok c => c :: preprocess_records rest
    | .error _ => preprocess_records rest

/-! ## Document formatter (convert_to_documents / _format_record_as_text) -/

/-- A LangChain document: page content plus metadata. -/
structure Doc where
  page_content : String
  metadata : Dict
deriving DecidableEq

/-- The keys pinned to the head of the rendered text and skipped in the
trailing key-value dump. -/
def skipKeys : List String := ["Pond", "Crop ID", "status"]

/-- `_format_record_as_text` (data_loader.py 178-207): three pinned lines
with "Unknown" defaults, a blank line, then every remaining key in original
iteration order as a "Key: Value" line, joined with newlines. -/
def format_record_as_text (r : Dict) : String :=
  let pond := (List.lookup "Pond" r).getD (.str "Unknown")
  let crop_id := (List.lookup "Crop ID" r).getD (.str "Unknown")
  let status := (List.lookup "status" r).getD (.str "Unknown")
  String.intercalate "\n"
    (["Pond: " ++ render pond,
      "Crop ID: " ++ render crop_id,
      "Status: " ++ render status,
      ""] ++
      (r.filter (fun kv => !(skipKeys.contains kv.1))).map
        (fun kv => kv.1 ++ ": " ++ render kv.2))

/-- The document built for the record at position `i` of the input sequence
(body of the loop in `convert_to_documents`, data_loader.py 140-176). -/
def mkDoc (source : String) (i : Nat) (r : Dict) : Doc :=
  { page_content := format_record_as_text r
  , metadata :=
      [("source", .str source),
       ("record_index", .int (i : Int)),
       ("pond", (List.lookup "Pond" r).getD (.str "Unknown")),
       ("crop_id", (List.lookup "Crop ID" r).getD (.str "Unknown")),
       ("status", (List.lookup "status" r).getD (.str "Unknown"))] }

/-- The `enumerate` loop of `convert_to_documents`, carrying the running
index. -/
def convertFrom (source : String) : Nat → List Dict → List Doc
  | _, [] => []
  | i, r :: rs => mkDoc source i r :: convertFrom source (i + 1) rs

/-- `convert_to_documents` (data_loader.py 140-176). -/
def convert_to_documents (records : List Dict) (source : String) : List Doc :=
  convertFrom source 0 records

/-! ## Vector store (chroma_store.py) -/

/-- A persisted entry of the ChromaDB collection: id, document text,
metadata and embedding vector. -/
structure Entry where
  id : String
  content : String
  metadata : Dict
  vector : List ℚ
deriving DecidableEq

/-- The id assigned to the document at global position `k` of an
`add_documents` call: the Python f-string `doc_{uuid4().hex[:8]}_{i+j}`,
with the uuid draw for that position supplied by the parameter `u`. -/
def mkDocId (u : Nat → String) (k : Nat) : String :=
  "doc_" ++ u k ++ "_" ++ Nat.repr k

/-- The entry built for the document at global position `k` (body of the
inner loop of `add_documents`, chroma_store.py 105-115): the metadata is a
copy of the document metadata with `doc_index` and then `content_length`
assigned into it. -/
def entryOf (u : Nat → String) (k : Nat) (d : Doc) (e : List ℚ) : Entry :=
  { id := mkDocId u k
  , content := d.page_content
  , metadata :=
      dictSet (dictSet d.metadata "doc_index" (.int (k : Int)))
        "content_length" (.int (d.page_content.length : Int))
  , vector := e }

/-- The `enumerate(zip(batch_docs, batch_embeddings))` loop of
`add_documents`, carrying the running global index `i + j`. -/
def mkEntries (u : Nat → String) : Nat → List (Doc × List ℚ) → List Entry
  | _, [] => []
  | k, de :: rest => entryOf u k de.1 de.2 :: mkEntries u (k + 1) rest

/-- The batch loop of `add_documents` (`for i in range(0, len(documents),
batch_size)`), with fuel bounding the number of batches; the fuel is spent
one unit per batch and `add_documents` supplies enough of it for any
positive batch size.  Returns the produced entries and `total_added`. -/
def addLoop (u : Nat → String) (bs : Nat) :
    Nat → List Doc → List (List ℚ) → Nat → List Entry × Nat
  | 0, _, _, _ => ([], 0)
  | _ + 1, [], _, _ => ([], 0)
  | fuel + 1, d :: ds, embs, start =>
    let docs := d :: ds
    let batch := mkEntries u start ((docs.take bs).zip (embs.take bs))
    let rest := addLoop u bs fuel (docs.drop bs) (embs.drop bs) (start + bs)
    (batch ++ rest.1, (docs.take bs).length + rest.2)

/-- `add_documents` (chroma_store.py 66-137): raises when the number of
documents differs from the number of embedding rows, otherwise writes every
entry into the collection in batches and returns `total_added`. -/
def add_documents (u : Nat → String) (bs : Nat) (store : List Entry)
    (documents : List Doc) (embeddings : List (List ℚ)) :
    Except String (List Entry × Nat) :=
  if documents.length ≠ embeddings.length then
    .error "Number of documents does not match number of embeddings"
  else
    let r := addLoop u bs documents.length documents embeddings 0
    .ok (store ++ r.1, r.2)

/-- `collection.count()`: the number of persisted entries. -/
def count (store : List Entry) : Nat := store.length

/-- A metadata equality filter: a conjunction of field = value conditions
(the `{"field": {"$eq": value}}` ChromaDB where-clause shape used by the
retriever). -/
abbrev Filt := List (String × Val)

/-- Whether an entry satisfies the optional metadata filter (no filter
accepts everything, several conditions are conjoined). -/
def matchesFilter (wf : Option Filt) (e : Entry) : Bool :=
  match wf with
  | none => true
  | some conds => conds.all (fun c => List.lookup c.1 e.metadata == some c.2)

/-- Modelled from the spec: the external ChromaDB `collection.query`, which
is consumed as a black-box service.  Per the vector-store contract it
restricts the collection to the entries matching the metadata filter,
orders them by ascending distance to the query vector (ties kept in
insertion order, via a stable sort) and returns at most `top_k` of them,
never raising; an empty collection yields an empty result. -/
def collectionQuery (dist : List ℚ → List ℚ → ℚ) (store : List Entry)
    (qv : List ℚ) (top_k : Nat) (wf : Option Filt) : List (Entry × ℚ) :=
  (List.insertionSort (fun a b => a.2 ≤ b.2)
      ((store.filter (matchesFilter wf)).map (fun e => (e, dist qv e.vector)))).take top_k

/-- One retrieval result as assembled by `VectorStore.search`. -/
structure SearchResult where
  id : String
  content : String
  metadata : Dict
  similarity_score : ℚ
  distance : ℚ
  rank : Nat
deriving DecidableEq

/-- The result-assembly loop of `VectorStore.search`: similarity is
`1 - distance` and ranks are 1-based in result order. -/
def rankResults : Nat → List (Entry × ℚ) → List SearchResult
  | _, [] => []
  | i, ed :: rest =>
    { id := ed.1.id
    , content := ed.1.content
    , metadata := ed.1.metadata
    , similarity_score := 1 - ed.2
    , distance := ed.2
    , rank := i + 1 } :: rankResults (i + 1) rest

/-- `VectorStore.search` (chroma_store.py 139-193): query the collection
and convert each match to a result row; with no matches the guard on the
returned document list leaves the result list empty.  Totality of the
definition reflects that no error is raised on an empty result. -/
def search (dist : List ℚ → List ℚ → ℚ) (store : List Entry)
    (query_embedding : List ℚ) (top_k : Nat) (wf : Option Filt) :
    List SearchResult :=
  rankResults 0 (collectionQuery dist store query_embedding top_k wf)

/-! ## Embedding manager (embedding_manager.py) -/

/-- `EmbeddingManager.generate_embeddings` (embedding_manager.py 46-69):
an empty input short-circuits to an empty array, otherwise the underlying
encoder `enc` (the sentence-transformer model, a black box) is applied. -/
def generate_embeddings (enc : List String → List (List ℚ))
    (texts : List String) : List (List ℚ) :=
  if texts.isEmpty then [] else enc texts

/-- `EmbeddingManager.generate_embedding_for_query` (embedding_manager.py
71-85): an empty query raises ValueError, otherwise the query is embedded
as a singleton batch and the first row is returned (indexing an empty
result raises). -/
def generate_embedding_for_query (enc : List String → List (List ℚ))
    (query : String) : Except String (List ℚ) :=
  if query.isEmpty then .error "Query cannot be empty"
  else
    match generate_embeddings enc [query] with
    | [] => .error "index out of range"
    | v :: _ => .ok v

/-! ## Retriever (retriever.py) -/

/-- `Retriever.retrieve` (retriever.py 37-84): embed the query, search the
vector store, and keep exactly the results whose similarity score is at
least the threshold; exceptions from embedding propagate. -/
def retrieve (enc : List String → List (List ℚ))
    (dist : List ℚ → List ℚ → ℚ) (store : List Entry) (query : String)
    (top_k : Nat) (similarity_threshold : ℚ) (wf : Option Filt) :
    Except String (List SearchResult) :=
  match generate_embedding_for_query enc query with
  | .error e => .error e
  | .ok qe =>
    .ok ((search dist store qe top_k wf).filter
      (fun r => similarity_threshold ≤ r.similarity_score))

/-! ## Prompt router (llm_client.py, PromptBuilder) -/

/-- Python `str.lower`, character by character (ASCII-faithful). -/
def pyLower (s : String) : String := ⟨s.data.map Char.toLower⟩

/-- Whether the second list is a leading block of the first. -/
def startsWithL : List Char → List Char → Bool
  | _, [] => true
  | [], _ :: _ => false
  | a :: as, b :: bs => a == b && startsWithL as bs

/-- Whether `sub` occurs contiguously inside `l` (Python `sub in l`). -/
def hasSubstr : List Char → List Char → Bool
  | [], sub => sub.isEmpty
  | c :: t, sub => startsWithL (c :: t) sub || hasSubstr t sub

/-- Python substring containment test on strings. -/
def containsSub (s sub : String) : Bool := hasSubstr s.data sub.data

/-- The keyword-to-category table of `detect_query_type` (llm_client.py
204-212), in dict insertion order. -/
def keyword_mapping : List (String × String) :=
  [("survival", "survival_analysis"),
   ("feed", "feed_conversion"),
   ("fcr", "feed_conversion"),
   ("biomass", "biomass"),
   ("stocking", "biomass"),
   ("performance", "pond_performance"),
   ("pond", "pond_performance")]

/-- `PromptBuilder.detect_query_type` (llm_client.py 191-218): lower-case
the query, scan the table in insertion order, return the category of the
first keyword occurring in the query, defaulting to "general". -/
def detect_query_type (query : String) : String :=
  let ql := pyLower query
  match keyword_mapping.find? (fun kv => containsSub ql kv.1) with
  | some kv => kv.2
  | none => "general"

/-! ## Decimal decoding helpers (for uniqueness of assigned ids) -/

/-- Numeric value of a decimal digit character. -/
def digitVal (c : Char) : Nat := c.toNat - 48

/-- Decode a most-significant-first decimal digit list. -/
def decodeDigits (l : List Char) : Nat :=
  l.foldl (fun a c => 10 * a + digitVal c) 0

/-- Decidable equality of embedding results, used to evaluate the model on
concrete inputs. -/
instance {ε α : Type} [DecidableEq ε] [DecidableEq α] : DecidableEq (Except ε α) :=
  fun a b =>
    match a, b with
    | .ok x, .ok y =>
      if h : x = y then .isTrue (by rw [h]) else .isFalse (by intro hc; cases hc; exact h rfl)
    | .error x, .error y =>
      if h : x = y then .isTrue (by rw [h]) else .isFalse (by intro hc; cases hc; exact h rfl)
    | .ok _, .error _ => .isFalse (by intro hc; cases hc)
    | .error _, .ok _ => .isFalse (by intro hc; cases hc)

/-! ## Helper lemmas: stripping and value cleaning -/

theorem dropWhile_head_false {p : Char → Bool} {c : Char} {t : List Char} :
    ∀ l : List Char, l.dropWhile p = c :: t → p c = false := by
  intro l
  induction l with
  | nil => intro h; simp at h
  | cons a l ih =>
    intro h
    rw [List.dropWhile_cons] at h
    by_cases ha : p a = true
    · exact ih (by simpa [ha] using h)
    · have ha' : p a = false := by simpa using ha
      rw [if_neg (by simp [ha'])] at h
      cases h
      exact ha'

theorem stripData_idem (l : List Char) : stripData (stripData l) = stripData l := by
  unfold stripData
  set p := Char.isWhitespace with hp
  have hdrop : (((l.dropWhile p).rdropWhile p).dropWhile p) = (l.dropWhile p).rdropWhile p := by
    rcases hm : (l.dropWhile p).rdropWhile p with _ | ⟨c, t⟩
    · simp
    · have hpre : (l.dropWhile p).rdropWhile p <+: l.dropWhile p :=
        List.rdropWhile_prefix p (l.dropWhile p)
      rw [hm] at hpre
      obtain ⟨s, hs⟩ := hpre
      have hc : p c = false := dropWhile_head_false l hs.symm
      simp [List.dropWhile_cons, hc]
  rw [hdrop, List.rdropWhile_idempotent]

theorem pyStrip_idem (s : String) : pyStrip (pyStrip s) = pyStrip s := by
  show (⟨stripData (stripData s.data)⟩ : String) = ⟨stripData s.data⟩
  rw [stripData_idem]

theorem cleanVal_scalar (v : Val) : isScalar (cleanVal v) = true := by
  cases v <;> rfl

theorem cleanVal_idem (v : Val) (h : isScalar v = true) :
    cleanVal (cleanVal v) = cleanVal v := by
  cases v with
  | null =>
    show Val.str (pyStrip "N/A") = Val.str "N/A"
    rfl
  | str s => simp [cleanVal, pyStrip_idem]
  | int n => rfl
  | float q => rfl
  | other s => simp [isScalar] at h

/-! ## Helper lemmas: dict assignment -/

theorem mem_keys_dictSet (m : Dict) (k : String) (v : Val) (a : String) :
    a ∈ keys (dictSet m k v) ↔ a ∈ keys m ∨ a = k := by
  induction m with
  | nil => simp [dictSet, keys]
  | cons kv rest ih =>
    by_cases h : kv.1 = k
    · subst h
      simp [dictSet, keys]
      tauto
    · simp only [dictSet, if_neg h, keys, List.map_cons, List.mem_cons]
      rw [show (rest.map Prod.fst = keys rest) from rfl] at *
      constructor
      · rintro (h1 | h2)
        · exact Or.inl (Or.inl h1)
        · rcases (ih).1 h2 with h3 | h3
          · exact Or.inl (Or.inr h3)
          · exact Or.inr h3
      · rintro ((h1 | h2) | h3)
        · exact Or.inl h1
        · exact Or.inr ((ih).2 (Or.inl h2))
        · exact Or.inr ((ih).2 (Or.inr h3))

theorem dictSet_of_notMem (m : Dict) (k : String) (v : Val) (h : k ∉ keys m) :
    dictSet m k v = m ++ [(k, v)] := by
  induction m with
  | nil => rfl
  | cons kv rest ih =>
    have hne : kv.1 ≠ k := by
      intro he; exact h (by simp [keys, he])
    have hrest : k ∉ keys rest := by
      intro he; exact h (by simp [keys] at he ⊢; exact Or.inr he)
    simp [dictSet, if_neg hne, ih hrest]

theorem mem_of_mem_dictSet {m : Dict} {k : String} {v : Val} {kv : String × Val}
    (h : kv ∈ dictSet m k v) : kv ∈ m ∨ kv = (k, v) := by
  induction m with
  | nil => simp [dictSet] at h; simp [h]
  | cons kv0 rest ih =>
    by_cases he : kv0.1 = k
    · rw [dictSet, if_pos he] at h
      rcases List.mem_cons.1 h with h1 | h1
      · exact Or.inr h1
      · exact Or.inl (List.mem_cons_of_mem _ h1)
    · rw [dictSet, if_neg he] at h
      rcases List.mem_cons.1 h with h1 | h1
      · exact Or.inl (h1 ▸ List.mem_cons_self _ _)
      · rcases ih h1 with h2 | h2
        · exact Or.inl (List.mem_cons_of_mem _ h2)
        · exact Or.inr h2

theorem nodup_keys_dictSet (m : Dict) (k : String) (v : Val)
    (h : (keys m).Nodup) : (keys (dictSet m k v)).Nodup := by
  induction m with
  | nil => simp [dictSet, keys]
  | cons kv rest ih =>
    simp only [keys, List.map_cons, List.nodup_cons] at h
    by_cases he : kv.1 = k
    · subst he
      simpa [dictSet, keys, List.nodup_cons] using h
    · rw [dictSet, if_neg he]
      simp only [keys, List.map_cons, List.nodup_cons]
      refine ⟨?_, ih h.2⟩
      intro hmem
      rcases (mem_keys_dictSet rest k v kv.1).1 hmem with h1 | h1
      · exact h.1 h1
      · exact he h1

theorem lookup_dictSet_self (m : Dict) (k : String) (v : Val) :
    List.lookup k (dictSet m k v) = some v := by
  induction m with
  | nil => simp [dictSet, List.lookup]
  | cons kv rest ih =>
    obtain ⟨k0, v0⟩ := kv
    by_cases he : k0 = k
    · subst he
      simp [dictSet, List.lookup]
    · have h1 : (k == k0) = false := by
        simp only [beq_eq_false_iff_ne, ne_eq]
        intro hc; exact he hc.symm
      simp only [dictSet, if_neg he, List.lookup, h1, ih]

theorem lookup_dictSet_ne (m : Dict) (k : String) (v : Val) (a : String)
    (h : a ≠ k) : List.lookup a (dictSet m k v) = List.lookup a m := by
  induction m with
  | nil =>
    have h1 : (a == k) = false := by simpa using h
    simp [dictSet, List.lookup, h1]
  | cons kv rest ih =>
    obtain ⟨k0, v0⟩ := kv
    by_cases he : k0 = k
    · subst he
      have h1 : (a == k0) = false := by simpa using h
      simp [dictSet, List.lookup, h1]
    · by_cases ha : a = k0
      · subst ha
        simp [dictSet, if_neg he, List.lookup]
      · have h1 : (a == k0) = false := by simpa using ha
        simp only [dictSet, if_neg he, List.lookup, h1, ih]

/-! ## Helper lemmas: the record-cleaning fold -/

theorem foldl_clean_eq_append (r : Dict) :
    ∀ acc : Dict, (keys acc ++ r.map (fun kv => pyStrip kv.1)).Nodup →
    r.foldl (fun acc kv => dictSet acc (pyStrip kv.1) (cleanVal kv.2)) acc =
      acc ++ r.map (fun kv => (pyStrip kv.1, cleanVal kv.2)) := by
  induction r with
  | nil => intro acc h; simp
  | cons kv rest ih =>
    intro acc h
    simp only [List.map_cons] at h
    have hk : pyStrip kv.1 ∉ keys acc := by
      intro hmem
      rcases List.nodup_append.1 h with ⟨_, _, hdisj⟩
      exact hdisj hmem (List.mem_cons_self _ _)
    rw [List.foldl_cons, dictSet_of_notMem _ _ _ hk, ih]
    · rw [List.append_assoc]
      rfl
    · have hkeys : keys (acc ++ [(pyStrip kv.1, cleanVal kv.2)]) =
          keys acc ++ [pyStrip kv.1] := by
        simp [keys]
      rw [hkeys, List.append_assoc]
      simpa using h

theorem cleanRecord_eq_map (r : Dict)
    (h : (r.map (fun kv => pyStrip kv.1)).Nodup) :
    cleanRecord r = r.map (fun kv => (pyStrip kv.1, cleanVal kv.2)) := by
  unfold cleanRecord
  exact foldl_clean_eq_append r [] (by simpa [keys] using h)

theorem foldl_clean_inv (r : Dict) :
    ∀ acc : Dict,
    (∀ kv ∈ acc, pyStrip kv.1 = kv.1 ∧ cleanVal kv.2 = kv.2) →
    (keys acc).Nodup →
    (∀ kv ∈ r, isScalar kv.2 = true) →
    (∀ kv ∈ r.foldl (fun acc kv => dictSet acc (pyStrip kv.1) (cleanVal kv.2)) acc,
        pyStrip kv.1 = kv.1 ∧ cleanVal kv.2 = kv.2) ∧
      (keys (r.foldl (fun acc kv => dictSet acc (pyStrip kv.1) (cleanVal kv.2)) acc)).Nodup := by
  induction r with
  | nil => intro acc hacc hnd _; exact ⟨hacc, hnd⟩
  | cons kv rest ih =>
    intro acc hacc hnd hr
    rw [List.foldl_cons]
    refine ih _ ?_ (nodup_keys_dictSet _ _ _ hnd) (fun x hx => hr x (List.mem_cons_of_mem _ hx))
    intro x hx
    rcases mem_of_mem_dictSet hx with h1 | h1
    · exact hacc x h1
    · subst h1
      exact ⟨pyStrip_idem _, cleanVal_idem _ (hr kv (List.mem_cons_self _ _))⟩

theorem cleanRecord_inv (r : Dict) (hr : ∀ kv ∈ r, isScalar kv.2 = true) :
    (∀ kv ∈ cleanRecord r, pyStrip kv.1 = kv.1 ∧ cleanVal kv.2 = kv.2) ∧
      (keys (cleanRecord r)).Nodup := by
  unfold cleanRecord
  refine foldl_clean_inv r [] ?_ ?_ hr
  · intro kv h; simp at h
  · simp [keys]

theorem cleanRecord_fixed (m : Dict)
    (hm : ∀ kv ∈ m, pyStrip kv.1 = kv.1 ∧ cleanVal kv.2 = kv.2)
    (hnd : (keys m).Nodup) : cleanRecord m = m := by
  have htr : (m.map fun kv => pyStrip kv.1) = keys m := by
    unfold keys
    exact List.map_congr_left (fun kv h => (hm kv h).1)
  rw [cleanRecord_eq_map m (htr ▸ hnd)]
  conv_rhs => rw [show m = m.map id from (List.map_id m).symm]
  exact List.map_congr_left (fun kv h => by
    obtain ⟨h1, h2⟩ := hm kv h
    simp [h1, h2])

theorem lookup_clean_list : ∀ (r : Dict),
    (r.map (fun kv => pyStrip kv.1)).Nodup →
    ∀ k v, (k, v) ∈ r →
    List.lookup (pyStrip k) (r.map (fun kv => (pyStrip kv.1, cleanVal kv.2))) =
      some (cleanVal v) := by
  intro r
  induction r with
  | nil => intro _ k v h; simp at h
  | cons kv0 rest ih =>
    intro hnd k v h
    simp only [List.map_cons, List.nodup_cons] at hnd
    rcases List.mem_cons.1 h with h1 | h1
    · subst h1
      simp [List.lookup]
    · have hne : pyStrip k ≠ pyStrip kv0.1 := by
        intro he
        apply hnd.1
        rw [← he]
        exact List.mem_map.2 ⟨(k, v), h1, rfl⟩
      have hbeq : (pyStrip k == pyStrip kv0.1) = false := by simpa using hne
      simp only [List.map_cons, List.lookup, hbeq]
      exact ih hnd.2 k v h1

theorem lookup_cleanRecord (r : Dict)
    (hnd : (r.map (fun kv => pyStrip kv.1)).Nodup)
    (k : String) (v : Val) (h : (k, v) ∈ r) :
    List.lookup (pyStrip k) (cleanRecord r) = some (cleanVal v) := by
  rw [cleanRecord_eq_map r hnd]
  exact lookup_clean_list r hnd k v h

theorem mem_keys_foldl_clean (r : Dict) :
    ∀ (acc : Dict) (a : String),
    a ∈ keys (r.foldl (fun acc kv => dictSet acc (pyStrip kv.1) (cleanVal kv.2)) acc) ↔
      a ∈ keys acc ∨ ∃ kv ∈ r, pyStrip kv.1 = a := by
  induction r with
  | nil => intro acc a; simp
  | cons kv rest ih =>
    intro acc a
    rw [List.foldl_cons, ih]
    rw [mem_keys_dictSet]
    constructor
    · rintro ((h1 | h1) | ⟨x, hx, hs⟩)
      · exact Or.inl h1
      · exact Or.inr ⟨kv, List.mem_cons_self _ _, h1.symm⟩
      · exact Or.inr ⟨x, List.mem_cons_of_mem _ hx, hs⟩
    · rintro (h1 | ⟨x, hx, hs⟩)
      · exact Or.inl (Or.inl h1)
      · rcases List.mem_cons.1 hx with h2 | h2
        · exact Or.inl (Or.inr (by rw [← hs, h2]))
        · exact Or.inr ⟨x, h2, hs⟩

/-! ## Helper lemmas: decimal representations and id uniqueness -/

theorem toDigitsCore_acc :
    ∀ (f n : Nat) (acc : List Char),
      Nat.toDigitsCore 10 f n acc = Nat.toDigitsCore 10 f n [] ++ acc := by
  intro f
  induction f with
  | zero => intro n acc; rfl
  | succ f ih =>
    intro n acc
    simp only [Nat.toDigitsCore]
    by_cases h : n / 10 = 0
    · simp [h]
    · rw [if_neg h, if_neg h, ih (n / 10) (Nat.digitChar (n % 10) :: acc),
        ih (n / 10) [Nat.digitChar (n % 10)], List.append_assoc]
      rfl

theorem toDigitsCore_fuel :
    ∀ (n f₁ f₂ : Nat), n < f₁ → n < f₂ →
      Nat.toDigitsCore 10 f₁ n [] = Nat.toDigitsCore 10 f₂ n [] := by
  intro n
  induction n using Nat.strong_induction_on with
  | _ n ih =>
    intro f₁ f₂ h₁ h₂
    obtain ⟨g₁, rfl⟩ : ∃ g, f₁ = g + 1 :=
      ⟨f₁ - 1, by omega⟩
    obtain ⟨g₂, rfl⟩ : ∃ g, f₂ = g + 1 :=
      ⟨f₂ - 1, by omega⟩
    simp only [Nat.toDigitsCore]
    by_cases h : n / 10 = 0
    · simp [h]
    · rw [if_neg h, if_neg h,
        toDigitsCore_acc g₁ (n / 10) [Nat.digitChar (n % 10)],
        toDigitsCore_acc g₂ (n / 10) [Nat.digitChar (n % 10)]]
      have hlt : n / 10 < n := Nat.div_lt_self (by omega) (by omega)
      rw [ih (n / 10) hlt g₁ g₂ (by omega) (by omega)]

theorem toDigits_step (n : Nat) :
    Nat.toDigits 10 n =
      if n / 10 = 0 then [Nat.digitChar (n % 10)]
      else Nat.toDigits 10 (n / 10) ++ [Nat.digitChar (n % 10)] := by
  by_cases h : n / 10 = 0
  · simp only [Nat.toDigits, Nat.toDigitsCore, h, if_pos]
  · rw [if_neg h]
    show Nat.toDigitsCore 10 (n + 1) n [] = _
    simp only [Nat.toDigitsCore]
    rw [if_neg h, toDigitsCore_acc n (n / 10) [Nat.digitChar (n % 10)]]
    have hlt : n / 10 < n := Nat.div_lt_self (by omega) (by omega)
    rw [toDigitsCore_fuel (n / 10) n (n / 10 + 1) hlt (by omega)]
    rfl

theorem digitChar_isDigit (n : Nat) (h : n < 10) :
    (Nat.digitChar n).isDigit = true := by
  interval_cases n <;> decide

theorem digitVal_digitChar (n : Nat) (h : n < 10) :
    digitVal (Nat.digitChar n) = n := by
  interval_cases n <;> decide

theorem toDigits_all_digits (n : Nat) :
    ∀ c ∈ Nat.toDigits 10 n, c.isDigit = true := by
  induction n using Nat.strong_induction_on with
  | _ n ih =>
    intro c hc
    rw [toDigits_step] at hc
    by_cases h : n / 10 = 0
    · rw [if_pos h] at hc
      rcases List.mem_singleton.1 hc with rfl
      exact digitChar_isDigit _ (Nat.mod_lt _ (by omega))
    · rw [if_neg h] at hc
      rcases List.mem_append.1 hc with h1 | h1
      · exact ih (n / 10) (Nat.div_lt_self (by omega) (by omega)) c h1
      · rcases List.mem_singleton.1 h1 with rfl
        exact digitChar_isDigit _ (Nat.mod_lt _ (by omega))

theorem decodeDigits_append_one (l : List Char) (c : Char) :
    decodeDigits (l ++ [c]) = 10 * decodeDigits l + digitVal c := by
  unfold decodeDigits
  rw [List.foldl_append]
  rfl

theorem decodeDigits_toDigits (n : Nat) :
    decodeDigits (Nat.toDigits 10 n) = n := by
  induction n using Nat.strong_induction_on with
  | _ n ih =>
    rw [toDigits_step]
    by_cases h : n / 10 = 0
    · rw [if_pos h]
      have hn : n < 10 := by omega
      show decodeDigits ([] ++ [Nat.digitChar (n % 10)]) = n
      rw [decodeDigits_append_one]
      show 10 * 0 + digitVal (Nat.digitChar (n % 10)) = n
      rw [digitVal_digitChar _ (Nat.mod_lt _ (by omega))]
      omega
    · rw [if_neg h, decodeDigits_append_one,
        ih (n / 10) (Nat.div_lt_self (by omega) (by omega)),
        digitVal_digitChar _ (Nat.mod_lt _ (by omega))]
      omega

theorem repr_inj_nat {m n : Nat} (h : Nat.repr m = Nat.repr n) : m = n := by
  have hd : Nat.toDigits 10 m = Nat.toDigits 10 n := by
    have := congrArg String.data h
    simpa [Nat.repr, List.asString] using this
  have := congrArg decodeDigits hd
  rwa [decodeDigits_toDigits, decodeDigits_toDigits] at this

theorem digits_before_marker :
    ∀ (p q r s : List Char), (∀ c ∈ p, c.isDigit = true) →
      (∀ c ∈ q, c.isDigit = true) →
      p ++ '_' :: r = q ++ '_' :: s → p = q := by
  intro p
  induction p with
  | nil =>
    intro q r s _ hq h
    cases q with
    | nil => rfl
    | cons c q' =>
      have : '_' = c := by
        have := congrArg (fun l => l.head?) h
        simpa using this
      have hc := hq c (List.mem_cons_self _ _)
      rw [← this] at hc
      simp [Char.isDigit] at hc
  | cons c p' ih =>
    intro q r s hp hq h
    cases q with
    | nil =>
      have : c = '_' := by
        have := congrArg (fun l => l.head?) h
        simpa using this
      have hc := hp c (List.mem_cons_self _ _)
      rw [this] at hc
      simp [Char.isDigit] at hc
    | cons d q' =>
      have hcd : c = d := by
        have := congrArg (fun l => l.head?) h
        simpa using this
      have htail : p' ++ '_' :: r = q' ++ '_' :: s := by
        have := congrArg (fun l => l.tail) h
        simpa using this
      rw [hcd, ih q' r s (fun x hx => hp x (List.mem_cons_of_mem _ hx))
        (fun x hx => hq x (List.mem_cons_of_mem _ hx)) htail]

theorem mkDocId_inj (u : Nat → String) : Function.Injective (mkDocId u) := by
  intro i j h
  have hdata : ("doc_" ++ u i).data ++ '_' :: (Nat.toDigits 10 i) =
      ("doc_" ++ u j).data ++ '_' :: (Nat.toDigits 10 j) := by
    have := congrArg String.data h
    simpa [mkDocId, Nat.repr, List.asString, List.append_assoc] using this
  have hrev : (Nat.toDigits 10 i).reverse ++ '_' :: ("doc_" ++ u i).data.reverse =
      (Nat.toDigits 10 j).reverse ++ '_' :: ("doc_" ++ u j).data.reverse := by
    have := congrArg List.reverse hdata
    simpa [List.reverse_append] using this
  have heq : (Nat.toDigits 10 i).reverse = (Nat.toDigits 10 j).reverse :=
    digits_before_marker _ _ _ _
      (fun c hc => toDigits_all_digits i c (List.mem_reverse.1 hc))
      (fun c hc => toDigits_all_digits j c (List.mem_reverse.1 hc)) hrev
  have hdig : Nat.toDigits 10 i = Nat.toDigits 10 j :=
    List.reverse_injective heq
  have := congrArg decodeDigits hdig
  rwa [decodeDigits_toDigits, decodeDigits_toDigits] at this

/-! ## Helper lemmas: the batched add loop -/

theorem mkEntries_append (u : Nat → String) :
    ∀ (a b : List (Doc × List ℚ)) (s : Nat),
      mkEntries u s (a ++ b) = mkEntries u s a ++ mkEntries u (s + a.length) b := by
  intro a
  induction a with
  | nil => intro b s; simp [mkEntries]
  | cons de rest ih =>
    intro b s
    show entryOf u s de.1 de.2 :: mkEntries u (s + 1) (rest ++ b) = _
    rw [ih b (s + 1), List.length_cons,
      show s + (rest.length + 1) = s + 1 + rest.length by omega]
    rfl

theorem mkEntries_length (u : Nat → String) :
    ∀ (ps : List (Doc × List ℚ)) (s : Nat), (mkEntries u s ps).length = ps.length := by
  intro ps
  induction ps with
  | nil => intro s; rfl
  | cons de rest ih => intro s; simp [mkEntries, ih]

theorem mkEntries_getElem? (u : Nat → String) :
    ∀ (ps : List (Doc × List ℚ)) (s j : Nat),
      (mkEntries u s ps)[j]? = (ps[j]?).map (fun de => entryOf u (s + j) de.1 de.2) := by
  intro ps
  induction ps with
  | nil => intro s j; simp [mkEntries]
  | cons de rest ih =>
    intro s j
    cases j with
    | zero => simp [mkEntries]
    | succ j =>
      simp only [mkEntries, List.getElem?_cons_succ]
      rw [ih (s + 1) j, show s + 1 + j = s + (j + 1) by omega]

theorem mkEntries_ids (u : Nat → String) :
    ∀ (ps : List (Doc × List ℚ)) (s : Nat),
      (mkEntries u s ps).map Entry.id = (List.range' s ps.length).map (mkDocId u) := by
  intro ps
  induction ps with
  | nil => intro s; rfl
  | cons de rest ih =>
    intro s
    simp only [mkEntries, List.map_cons, List.length_cons, List.range'_succ, ih]
    rfl

theorem addLoop_nil (u : Nat → String) (bs fuel : Nat) (embs : List (List ℚ))
    (start : Nat) : addLoop u bs fuel [] embs start = ([], 0) := by
  cases fuel <;> rfl

theorem addLoop_eq (u : Nat → String) (bs : Nat) (hbs : 0 < bs) :
    ∀ (fuel : Nat) (docs : List Doc) (embs : List (List ℚ)) (start : Nat),
      docs.length = embs.length → docs.length ≤ fuel →
      addLoop u bs fuel docs embs start =
        (mkEntries u start (docs.zip embs), docs.length) := by
  intro fuel
  induction fuel with
  | zero =>
    intro docs embs start hlen hle
    have hnil : docs = [] := List.eq_nil_of_length_eq_zero (Nat.le_zero.1 hle)
    subst hnil
    simp [addLoop, mkEntries]
  | succ fuel ih =>
    intro docs embs start hlen hle
    cases docs with
    | nil => simp [addLoop, mkEntries]
    | cons d ds =>
      simp only [addLoop]
      by_cases hble : bs ≤ (d :: ds).length
      · have htklen : ((d :: ds).take bs).length = bs := by
          rw [List.length_take]; omega
        have hdrlen : ((d :: ds).drop bs).length = (d :: ds).length - bs := by
          rw [List.length_drop]
        have hrec := ih ((d :: ds).drop bs) (embs.drop bs) (start + bs)
          (by rw [List.length_drop, List.length_drop, hlen])
          (by rw [hdrlen]; omega)
        rw [hrec]
        have hzip_take : ((d :: ds).take bs).zip (embs.take bs) =
            ((d :: ds).zip embs).take bs := by
          simp [List.zip, List.take_zipWith]
        have hzip_drop : ((d :: ds).drop bs).zip (embs.drop bs) =
            ((d :: ds).zip embs).drop bs := by
          simp [List.zip, List.drop_zipWith]
        have hziptk_len : (((d :: ds).zip embs).take bs).length = bs := by
          rw [List.length_take, List.length_zip, hlen.symm]
          omega
        dsimp only
        rw [Prod.mk.injEq]
        refine ⟨?_, ?_⟩
        · rw [hzip_take, hzip_drop]
          have happ := mkEntries_append u (((d :: ds).zip embs).take bs)
            (((d :: ds).zip embs).drop bs) start
          rw [hziptk_len] at happ
          rw [← happ, List.take_append_drop]
        · rw [htklen, hdrlen]
          omega
      · have hlt : (d :: ds).length < bs := by omega
        have htake : (d :: ds).take bs = d :: ds :=
          List.take_of_length_le (by omega)
        have hdrop : (d :: ds).drop bs = [] :=
          List.drop_eq_nil_of_le (by omega)
        have hetake : embs.take bs = embs :=
          List.take_of_length_le (by omega)
        rw [htake, hdrop, hetake, addLoop_nil]
        simp

/-! ## Helper lemmas: string joining -/

theorem intercalate_go_data (s : String) :
    ∀ (as : List String) (acc : String),
      (String.intercalate.go acc s as).data =
        acc.data ++ (as.map (fun a => s.data ++ a.data)).flatten := by
  intro as
  induction as with
  | nil => intro acc; simp [String.intercalate.go]
  | cons a as ih =>
    intro acc
    rw [String.intercalate.go, ih]
    simp

theorem flatten_intersperse (sep : List Char) :
    ∀ (xs : List (List Char)) (x : List Char),
      (List.intersperse sep (x :: xs)).flatten =
        x ++ (xs.map (fun l => sep ++ l)).flatten := by
  intro xs
  induction xs with
  | nil => intro x; simp
  | cons y ys ih =>
    intro x
    rw [show List.intersperse sep (x :: y :: ys) =
        x :: sep :: List.intersperse sep (y :: ys) from rfl]
    simp only [List.flatten_cons]
    rw [show (List.intersperse sep (y :: ys)).flatten =
        y ++ (ys.map (fun l => sep ++ l)).flatten from ih y]
    simp [List.append_assoc]

theorem intercalate_chars_cons (sep : List Char) (x : List Char)
    (xs : List (List Char)) :
    List.intercalate sep (x :: xs) = x ++ (xs.map (fun l => sep ++ l)).flatten := by
  unfold List.intercalate
  exact flatten_intersperse sep xs x

theorem data_string_intercalate (s : String) (l : List String) :
    (String.intercalate s l).data = List.intercalate s.data (l.map String.data) := by
  cases l with
  | nil => rfl
  | cons a as =>
    rw [show String.intercalate s (a :: as) = String.intercalate.go a s as from rfl]
    rw [intercalate_go_data, List.map_cons, intercalate_chars_cons, List.map_map]
    rfl

/-! ## Helper lemmas: the document conversion loop -/

theorem convertFrom_length (source : String) :
    ∀ (rs : List Dict) (i : Nat), (convertFrom source i rs).length = rs.length := by
  intro rs
  induction rs with
  | nil => intro i; rfl
  | cons r rest ih => intro i; simp [convertFrom, ih]

theorem convertFrom_getElem? (source : String) :
    ∀ (rs : List Dict) (i j : Nat),
      (convertFrom source i rs)[j]? = (rs[j]?).map (fun r => mkDoc source (i + j) r) := by
  intro rs
  induction rs with
  | nil => intro i j; simp [convertFrom]
  | cons r rest ih =>
    intro i j
    cases j with
    | zero => simp [convertFrom]
    | succ j =>
      simp only [convertFrom, List.getElem?_cons_succ]
      rw [ih (i + 1) j, show i + 1 + j = i + (j + 1) by omega]

/-! ## Helper lemmas: first match of a scan, zip indexing -/

theorem find?_first {α : Type} (p : α → Bool) :
    ∀ (l : List α) (i : Nat) (h : i < l.length),
      p (l.get ⟨i, h⟩) = true →
      (∀ j (hj : j < i), p (l.get ⟨j, Nat.lt_trans hj h⟩) = false) →
      l.find? p = some (l.get ⟨i, h⟩) := by
  intro l
  induction l with
  | nil => intro i h; simp at h
  | cons a t ih =>
    intro i h hp hprev
    cases i with
    | zero => exact List.find?_cons_of_pos t hp
    | succ i =>
      have ha : p a = false := hprev 0 (Nat.succ_pos i)
      rw [List.find?_cons_of_neg t (by simp [ha])]
      exact ih i (Nat.lt_of_succ_lt_succ h) hp
        (fun j hj => hprev (j + 1) (Nat.succ_lt_succ hj))

theorem zip_getElem? {α β : Type} :
    ∀ (l : List α) (m : List β) (i : Nat),
      (l.zip m)[i]? = l[i]?.bind (fun a => (m[i]?).map (fun b => (a, b))) := by
  intro l
  induction l with
  | nil => intro m i; simp
  | cons a l ih =>
    intro m i
    cases m with
    | nil => simp
    | cons b m =>
      cases i with
      | zero => simp
      | succ i => simpa using ih m i

/-- Character-level shape of `_format_record_as_text`: the three pinned
lines separated by newlines, the blank line, then one newline-prefixed
"Key: Value" block per remaining key. -/
theorem format_data (r : Dict) :
    (format_record_as_text r).data =
      ("Pond: " ++ render ((List.lookup "Pond" r).getD (Val.str "Unknown"))).data ++
      '\n' :: (("Crop ID: " ++ render ((List.lookup "Crop ID" r).getD (Val.str "Unknown"))).data ++
      '\n' :: (("Status: " ++ render ((List.lookup "status" r).getD (Val.str "Unknown"))).data ++
      '\n' :: (((r.filter (fun kv => !(skipKeys.contains kv.1))).map
          (fun kv => kv.1 ++ ": " ++ render kv.2)).map
        (fun l => '\n' :: l.data)).flatten)) := by
  unfold format_record_as_text
  rw [data_string_intercalate]
  simp only [List.map_append, List.map_cons, List.map_nil, List.cons_append,
    List.nil_append]
  rw [intercalate_chars_cons]
  simp [List.flatten_cons, List.map_map, Function.comp, List.append_assoc]
  rfl

/-! ## Claim theorems -/

/-- Claim C1: every result returned by `Retriever.retrieve` has
`similarity_score` at least the similarity threshold, and the returned
results are exactly the store search results whose score passes the
threshold. -/
theorem retrieve_threshold_spec
    (enc : List String → List (List ℚ)) (dist : List ℚ → List ℚ → ℚ)
    (store : List Entry) (query : String) (top_k : Nat)
    (similarity_threshold : ℚ) (wf : Option Filt) (res : List SearchResult)
    (h : retrieve enc dist store query top_k similarity_threshold wf = .ok res) :
    (∀ r ∈ res, similarity_threshold ≤ r.similarity_score) ∧
    ∃ qe, generate_embedding_for_query enc query = .ok qe ∧
      ∀ r, r ∈ res ↔
        r ∈ search dist store qe top_k wf ∧
          similarity_threshold ≤ r.similarity_score := by
  unfold retrieve at h
  cases he : generate_embedding_for_query enc query with
  | error msg => rw [he] at h; exact absurd h (by simp)
  | ok qe =>
    rw [he] at h
    have hres : (search dist store qe top_k wf).filter
        (fun r => similarity_threshold ≤ r.similarity_score) = res := by
      simpa using h
    constructor
    · intro r hr
      rw [← hres] at hr
      have := (List.mem_filter.1 hr).2
      exact of_decide_eq_true this
    · refine ⟨qe, rfl, fun r => ?_⟩
      rw [← hres, List.mem_filter]
      simp

/-- Witness for C1 at a one-entry store, threshold 9/10, constant encoder
and zero distance. -/
theorem retrieve_threshold_witness :
    (∀ r ∈ ([⟨"i", "c", [], 1 - 0, 0, 1⟩] : List SearchResult),
      (9 : ℚ)/10 ≤ r.similarity_score) ∧
    ∃ qe, generate_embedding_for_query
        (fun ts => ts.map (fun _ => [(0 : ℚ)])) "q" = .ok qe ∧
      ∀ r, r ∈ ([⟨"i", "c", [], 1 - 0, 0, 1⟩] : List SearchResult) ↔
        r ∈ search (fun _ _ => (0 : ℚ)) [⟨"i", "c", [], [0]⟩] qe 5 none ∧
          (9 : ℚ)/10 ≤ r.similarity_score :=
  retrieve_threshold_spec (fun ts => ts.map (fun _ => [(0 : ℚ)]))
    (fun _ _ => (0 : ℚ)) [⟨"i", "c", [], [0]⟩] "q" 5 ((9 : ℚ)/10) none _ (by
      simp [retrieve, generate_embedding_for_query, generate_embeddings, search,
        collectionQuery, rankResults, matchesFilter, List.insertionSort,
        List.orderedInsert]
      norm_num
      rfl)

/-- Claim C2: `detect_query_type` lower-cases the query and returns the
category of the first matching keyword of the ordered table, "general" when
no keyword occurs; in particular on the two cited example queries. -/
theorem detect_query_type_spec (query : String) :
    detect_query_type "What is the survival rate?" = "survival_analysis" ∧
    detect_query_type "hello" = "general" ∧
    ((∀ kv ∈ keyword_mapping, containsSub (pyLower query) kv.1 = false) →
      detect_query_type query = "general") ∧
    (∀ i (h : i < keyword_mapping.length),
      containsSub (pyLower query) (keyword_mapping.get ⟨i, h⟩).1 = true →
      (∀ j (hj : j < i),
        containsSub (pyLower query) (keyword_mapping.get ⟨j, Nat.lt_trans hj h⟩).1 = false) →
      detect_query_type query = (keyword_mapping.get ⟨i, h⟩).2) := by
  refine ⟨by decide, by decide, ?_, ?_⟩
  · intro hall
    have hnone : keyword_mapping.find?
        (fun kv => containsSub (pyLower query) kv.1) = none :=
      List.find?_eq_none.2 (fun kv hkv => by simp [hall kv hkv])
    simp [detect_query_type, hnone]
  · intro i h hi hprev
    have hfind := find?_first (fun kv => containsSub (pyLower query) kv.1)
      keyword_mapping i h hi hprev
    simp [detect_query_type, hfind]

/-- Witness for C2: the query "hello" matches no keyword, so the router
returns "general". -/
theorem detect_query_type_witness : detect_query_type "hello" = "general" :=
  (detect_query_type_spec "hello").2.2.1 (by decide)

/-- Claim C3: `VectorStore.search` on an empty collection, or when no entry
satisfies the metadata filter, returns an empty result list (and, the
definition being total, raises no error). -/
theorem search_empty_spec (dist : List ℚ → List ℚ → ℚ) (qv : List ℚ)
    (top_k : Nat) (wf : Option Filt) :
    search dist [] qv top_k wf = [] ∧
    ∀ store : List Entry, (∀ e ∈ store, matchesFilter wf e = false) →
      search dist store qv top_k wf = [] := by
  constructor
  · simp [search, collectionQuery, List.insertionSort, rankResults]
  · intro store hall
    have hfil : store.filter (matchesFilter wf) = [] :=
      List.filter_eq_nil_iff.2 (fun e he => by simp [hall e he])
    simp [search, collectionQuery, hfil, List.insertionSort, rankResults]

/-- Witness for C3: a one-entry store in which nothing matches the filter
yields an empty result. -/
theorem search_empty_witness :
    search (fun _ _ => (0 : ℚ)) [⟨"i", "c", [("pond", Val.str "A")], [0]⟩]
      [0] 5 (some [("pond", Val.str "B")]) = [] :=
  (search_empty_spec (fun _ _ => (0 : ℚ)) [0] 5
    (some [("pond", Val.str "B")])).2
    [⟨"i", "c", [("pond", Val.str "A")], [0]⟩] (by decide)

/-- Claim C4: `add_documents` raises when the document count differs from
the embedding row count; otherwise it writes all N entries with pairwise
distinct ids, returns N, and the collection count grows by exactly N. -/
theorem add_documents_spec (u : Nat → String) (bs : Nat) (store : List Entry)
    (documents : List Doc) (embeddings : List (List ℚ)) (hbs : 0 < bs) :
    (documents.length ≠ embeddings.length →
      add_documents u bs store documents embeddings =
        .error "Number of documents does not match number of embeddings") ∧
    (documents.length = embeddings.length →
      ∃ newEntries : List Entry,
        add_documents u bs store documents embeddings =
          .ok (store ++ newEntries, documents.length) ∧
        newEntries.length = documents.length ∧
        count (store ++ newEntries) = count store + documents.length ∧
        (newEntries.map Entry.id).Nodup) := by
  constructor
  · intro hne
    simp [add_documents, hne]
  · intro hlen
    have hloop := addLoop_eq u bs hbs documents.length documents embeddings 0
      hlen (Nat.le_refl _)
    have hzlen : (documents.zip embeddings).length = documents.length := by
      rw [List.length_zip, hlen, Nat.min_self]
    refine ⟨mkEntries u 0 (documents.zip embeddings), ?_, ?_, ?_, ?_⟩
    · simp only [add_documents, if_neg (by omega : ¬ documents.length ≠ embeddings.length)]
      rw [hloop]
    · rw [mkEntries_length, hzlen]
    · simp [count, mkEntries_length, hzlen]
    · rw [mkEntries_ids]
      exact List.Nodup.map (mkDocId_inj u) (List.nodup_range' 0 _)

/-- Witness for C4 at batch size 100 with one document and one embedding
row. -/
theorem add_documents_witness :
    ∃ newEntries : List Entry,
      add_documents (fun _ => "ab12cd34") 100 [] [⟨"c", []⟩] [[0]] =
        .ok ([] ++ newEntries, 1) ∧
      newEntries.length = 1 ∧
      count ([] ++ newEntries) = count [] + 1 ∧
      (newEntries.map Entry.id).Nodup :=
  (add_documents_spec (fun _ => "ab12cd34") 100 [] [⟨"c", []⟩] [[0]]
    (by decide)).2 rfl

/-- Claim C5 counterexample: in a record where a later key trims to the same
key as an earlier null-valued key, the later assignment overwrites the
cleaned "N/A", so the normalized value at that key is not "N/A". -/
theorem clean_record_null_cex :
    ("a", Val.null) ∈ ([("a", Val.null), (" a", Val.int 1)] : Dict) ∧
    ¬ List.lookup (pyStrip "a")
        (cleanRecord [("a", Val.null), (" a", Val.int 1)]) =
        some (Val.str "N/A") := by
  decide

/-- Claim C5 (amended): over records with scalar values, cleaning is
idempotent; and when no two keys collapse to the same trimmed key, every
null value is normalized to "N/A" at its trimmed key. -/
theorem clean_record_idem_spec (r : Dict)
    (hscalar : ∀ kv ∈ r, isScalar kv.2 = true) :
    cleanRecord (cleanRecord r) = cleanRecord r ∧
    ((r.map (fun kv => pyStrip kv.1)).Nodup →
      ∀ k, (k, Val.null) ∈ r →
        List.lookup (pyStrip k) (cleanRecord r) = some (Val.str "N/A")) := by
  constructor
  · obtain ⟨hfix, hnd⟩ := cleanRecord_inv r hscalar
    exact cleanRecord_fixed _ hfix hnd
  · intro hnd k hk
    have h := lookup_cleanRecord r hnd k Val.null hk
    simpa [cleanVal] using h

/-- Witness for C5 on the singleton record with a null value. -/
theorem clean_record_idem_witness :
    cleanRecord (cleanRecord [("a", Val.null)]) = cleanRecord [("a", Val.null)] ∧
    List.lookup (pyStrip "a") (cleanRecord [("a", Val.null)]) =
      some (Val.str "N/A") :=
  ⟨(clean_record_idem_spec [("a", Val.null)] (by decide)).1,
   (clean_record_idem_spec [("a", Val.null)] (by decide)).2 (by decide) "a"
     (by decide)⟩

/-- Claim C6 counterexample: a key with surrounding whitespace is trimmed,
so the cleaned record's key set differs from the input key set. -/
theorem clean_record_keys_cex :
    "a" ∈ keys (cleanRecord [(" a", Val.int 1)]) ∧
    "a" ∉ keys ([(" a", Val.int 1)] : Dict) := by
  decide

/-- Claim C6 (amended): the cleaned record's key set is the image of the
input key set under trimming (hence equal to the input key set when keys
are already trimmed and distinct), and under distinct trimmed keys each
value is transformed as specified; determinism holds because the model is a
function. -/
theorem clean_record_keys_spec (r : Dict) :
    (∀ a, a ∈ keys (cleanRecord r) ↔ ∃ kv ∈ r, pyStrip kv.1 = a) ∧
    ((∀ kv ∈ r, pyStrip kv.1 = kv.1) → (keys r).Nodup →
      keys (cleanRecord r) = keys r) ∧
    ((r.map (fun kv => pyStrip kv.1)).Nodup →
      ∀ k v, (k, v) ∈ r →
        List.lookup (pyStrip k) (cleanRecord r) = some (cleanVal v)) := by
  refine ⟨?_, ?_, ?_⟩
  · intro a
    have h := mem_keys_foldl_clean r [] a
    unfold cleanRecord
    simpa [keys] using h
  · intro hfix hnd
    have htr : (r.map fun kv => pyStrip kv.1) = keys r :=
      List.map_congr_left (fun kv h => hfix kv h)
    rw [cleanRecord_eq_map r (htr ▸ hnd)]
    unfold keys
    rw [List.map_map]
    exact List.map_congr_left (fun kv h => hfix kv h)
  · exact fun hnd k v h => lookup_cleanRecord r hnd k v h

/-- Witness for C6 on a record whose keys are already trimmed. -/
theorem clean_record_keys_witness :
    keys (cleanRecord [("k", Val.null)]) = keys ([("k", Val.null)] : Dict) :=
  (clean_record_keys_spec [("k", Val.null)]).2.1 (by decide) (by decide)

/-- Claim C7 counterexample: a whitespace-only query is not rejected; the
empty-check of `generate_embedding_for_query` only fires on the empty
string, so the blank query " " is embedded normally. -/
theorem embed_one_blank_cex :
    pyStrip " " = "" ∧
    generate_embedding_for_query (fun ts => ts.map (fun _ => [(0 : ℚ)])) " " =
      .ok [(0 : ℚ)] :=
  ⟨rfl, rfl⟩

/-- Claim C7 (amended): `generate_embedding_for_query` fails exactly on the
empty query, and on a nonempty query returns the first row of the singleton
batch embedding, which equals `embed([text])[0]`. -/
theorem embed_one_spec (enc : List String → List (List ℚ)) (query : String)
    (hlen : ∀ ts, (enc ts).length = ts.length) :
    (query.isEmpty = true →
      generate_embedding_for_query enc query = .error "Query cannot be empty") ∧
    (query.isEmpty = false →
      ∃ v, enc [query] = [v] ∧ generate_embeddings enc [query] = [v] ∧
        generate_embedding_for_query enc query = .ok v) := by
  constructor
  · intro he
    simp [generate_embedding_for_query, he]
  · intro he
    have h1 : generate_embeddings enc [query] = enc [query] := by
      simp [generate_embeddings]
    have h2 : (enc [query]).length = 1 := by rw [hlen]; rfl
    obtain ⟨v, hv⟩ : ∃ v, enc [query] = [v] := by
      cases henc : enc [query] with
      | nil => rw [henc] at h2; simp at h2
      | cons v t =>
        rw [henc] at h2
        simp only [List.length_cons, Nat.add_left_eq_self] at h2
        exact ⟨v, by rw [List.eq_nil_of_length_eq_zero h2]⟩
    refine ⟨v, hv, by rw [h1, hv], ?_⟩
    simp [generate_embedding_for_query, generate_embeddings, he, hv]

/-- Witness for C7 on the nonempty query "hi" with a constant encoder. -/
theorem embed_one_witness :
    ∃ v, (fun ts : List String => ts.map (fun _ => [(1 : ℚ)])) ["hi"] = [v] ∧
      generate_embeddings (fun ts => ts.map (fun _ => [(1 : ℚ)])) ["hi"] = [v] ∧
      generate_embedding_for_query (fun ts => ts.map (fun _ => [(1 : ℚ)])) "hi" =
        .ok v :=
  (embed_one_spec (fun ts => ts.map (fun _ => [(1 : ℚ)])) "hi"
    (fun ts => by simp)).2 rfl

/-- Claim C8: the i-th converted document renders the pinned lines first
with "Unknown" defaults, then a blank line, then the remaining keys in
original iteration order, and its metadata carries record_index = i with
pond, crop id and status duplicated from the record. -/
theorem convert_to_documents_spec (records : List Dict) (source : String)
    (i : Nat) (hi : i < records.length) :
    ∃ r d,
      records[i]? = some r ∧
      (convert_to_documents records source)[i]? = some d ∧
      (convert_to_documents records source).length = records.length ∧
      d.metadata =
        [("source", Val.str source),
         ("record_index", Val.int (i : Int)),
         ("pond", (List.lookup "Pond" r).getD (Val.str "Unknown")),
         ("crop_id", (List.lookup "Crop ID" r).getD (Val.str "Unknown")),
         ("status", (List.lookup "status" r).getD (Val.str "Unknown"))] ∧
      d.page_content.data =
        ("Pond: " ++ render ((List.lookup "Pond" r).getD (Val.str "Unknown"))).data ++
        '\n' :: (("Crop ID: " ++ render ((List.lookup "Crop ID" r).getD (Val.str "Unknown"))).data ++
        '\n' :: (("Status: " ++ render ((List.lookup "status" r).getD (Val.str "Unknown"))).data ++
        '\n' :: (((r.filter (fun kv => !(skipKeys.contains kv.1))).map
            (fun kv => kv.1 ++ ": " ++ render kv.2)).map
          (fun l => '\n' :: l.data)).flatten)) := by
  refine ⟨records.get ⟨i, hi⟩, mkDoc source i (records.get ⟨i, hi⟩),
    ?_, ?_, ?_, rfl, ?_⟩
  · rw [List.getElem?_eq_getElem hi]
    rfl
  · show (convertFrom source 0 records)[i]? = _
    rw [convertFrom_getElem? source records 0 i, List.getElem?_eq_getElem hi]
    simp
  · exact convertFrom_length source records 0
  · exact format_data (records.get ⟨i, hi⟩)

/-- Witness for C8 on a one-record input. -/
theorem convert_to_documents_witness :
    ∃ r d,
      ([[("Pond", Val.str "A"), ("x", Val.int 3)]] : List Dict)[0]? = some r ∧
      (convert_to_documents [[("Pond", Val.str "A"), ("x", Val.int 3)]]
        "pond_data")[0]? = some d ∧
      (convert_to_documents [[("Pond", Val.str "A"), ("x", Val.int 3)]]
        "pond_data").length =
        ([[("Pond", Val.str "A"), ("x", Val.int 3)]] : List Dict).length ∧
      d.metadata =
        [("source", Val.str "pond_data"),
         ("record_index", Val.int ((0 : Nat) : Int)),
         ("pond", (List.lookup "Pond" r).getD (Val.str "Unknown")),
         ("crop_id", (List.lookup "Crop ID" r).getD (Val.str "Unknown")),
         ("status", (List.lookup "status" r).getD (Val.str "Unknown"))] ∧
      d.page_content.data =
        ("Pond: " ++ render ((List.lookup "Pond" r).getD (Val.str "Unknown"))).data ++
        '\n' :: (("Crop ID: " ++ render ((List.lookup "Crop ID" r).getD (Val.str "Unknown"))).data ++
        '\n' :: (("Status: " ++ render ((List.lookup "status" r).getD (Val.str "Unknown"))).data ++
        '\n' :: (((r.filter (fun kv => !(skipKeys.contains kv.1))).map
            (fun kv => kv.1 ++ ": " ++ render kv.2)).map
          (fun l => '\n' :: l.data)).flatten)) :=
  convert_to_documents_spec [[("Pond", Val.str "A"), ("x", Val.int 3)]]
    "pond_data" 0 (by decide)

/-- Claim C9: `preprocess_records` keeps exactly the successfully cleaned
records, in their original relative order, and a record whose cleaning
raises is skipped without affecting the rest; the failure does not
propagate (the function is total). -/
theorem preprocess_records_spec :
    (∀ items : List RawItem,
      preprocess_records items =
        items.filterMap (fun it => (cleanRecordE it).toOption)) ∧
    (∀ (pre post : List RawItem) (b : RawItem) (msg : String),
      cleanRecordE b = .error msg →
      preprocess_records (pre ++ b :: post) = preprocess_records (pre ++ post)) := by
  have hmain : ∀ items : List RawItem,
      preprocess_records items =
        items.filterMap (fun it => (cleanRecordE it).toOption) := by
    intro items
    induction items with
    | nil => rfl
    | cons it rest ih =>
      cases h : cleanRecordE it with
      | ok c =>
        simp [preprocess_records, h, List.filterMap_cons, ih, Except.toOption]
      | error m =>
        simp [preprocess_records, h, List.filterMap_cons, ih, Except.toOption]
  refine ⟨hmain, ?_⟩
  intro pre post b msg hb
  rw [hmain, hmain, List.filterMap_append, List.filterMap_append,
    List.filterMap_cons]
  simp [hb, Except.toOption]

/-- Witness for C9: a failing item between two good ones is skipped. -/
theorem preprocess_records_witness :
    preprocess_records
        ([RawItem.record []] ++ RawItem.bad "boom" :: [RawItem.record []]) =
      preprocess_records ([RawItem.record []] ++ [RawItem.record []]) :=
  (preprocess_records_spec).2 [RawItem.record []] [RawItem.record []]
    (RawItem.bad "boom") "boom" rfl

/-- Claim C10 counterexample: a document whose metadata already contains a
doc_index field has that field overwritten by the persisted entry, so the
original fields are not all unchanged. -/
theorem add_documents_metadata_cex :
    add_documents (fun _ => "u") 100 [] [⟨"c", [("doc_index", Val.int 999)]⟩]
      [[0]] =
      .ok ([⟨"doc_u_0", "c",
        [("doc_index", Val.int 0), ("content_length", Val.int 1)], [0]⟩], 1) ∧
    List.lookup "doc_index" ([("doc_index", Val.int 999)] : Dict) =
      some (Val.int 999) ∧
    ¬ List.lookup "doc_index"
        ([("doc_index", Val.int 0), ("content_length", Val.int 1)] : Dict) =
        some (Val.int 999) :=
  ⟨rfl, by decide, by decide⟩

/-- Claim C10 (amended): for a document whose metadata contains neither
doc_index nor content_length, the persisted metadata is the original
metadata with exactly those two fields appended: doc_index = the 0-based
position in the whole input and content_length = the content length; keys
already present would instead be overwritten in place. -/
theorem add_documents_metadata_spec (u : Nat → String) (bs : Nat)
    (store : List Entry) (documents : List Doc) (embeddings : List (List ℚ))
    (hbs : 0 < bs) (hlen : documents.length = embeddings.length)
    (i : Nat) (d : Doc) (hd : documents[i]? = some d)
    (h1 : "doc_index" ∉ keys d.metadata)
    (h2 : "content_length" ∉ keys d.metadata) :
    ∃ (newEntries : List Entry) (e : Entry),
      add_documents u bs store documents embeddings =
        .ok (store ++ newEntries, documents.length) ∧
      newEntries[i]? = some e ∧
      e.content = d.page_content ∧
      e.metadata = d.metadata ++
        [("doc_index", Val.int (i : Int)),
         ("content_length", Val.int (d.page_content.length : Int))] := by
  have hi : i < documents.length := by
    by_contra hge
    push_neg at hge
    rw [List.getElem?_eq_none hge] at hd
    exact absurd hd (by simp)
  have hie : i < embeddings.length := by omega
  have hloop := addLoop_eq u bs hbs documents.length documents embeddings 0
    hlen (Nat.le_refl _)
  have hemb : embeddings[i]? = some (embeddings.get ⟨i, hie⟩) :=
    List.getElem?_eq_getElem hie
  refine ⟨mkEntries u 0 (documents.zip embeddings),
    entryOf u i d (embeddings.get ⟨i, hie⟩), ?_, ?_, rfl, ?_⟩
  · simp only [add_documents,
      if_neg (by omega : ¬ documents.length ≠ embeddings.length)]
    rw [hloop]
  · rw [mkEntries_getElem?, zip_getElem?, hd, hemb]
    simp
  · show dictSet (dictSet d.metadata "doc_index" (Val.int (i : Int)))
      "content_length" (Val.int (d.page_content.length : Int)) = _
    have hcl : "content_length" ∉
        keys (d.metadata ++ [("doc_index", Val.int (i : Int))]) := by
      intro hmem
      unfold keys at hmem
      rw [List.map_append] at hmem
      rcases List.mem_append.1 hmem with hm | hm
      · exact h2 hm
      · simp only [List.map_cons, List.map_nil, List.mem_singleton] at hm
        exact absurd hm (by decide)
    rw [dictSet_of_notMem _ _ _ h1, dictSet_of_notMem _ _ _ hcl,
      List.append_assoc]
    rfl

/-- Witness for C10 on a one-document batch with a pond metadata field. -/
theorem add_documents_metadata_witness :
    ∃ (newEntries : List Entry) (e : Entry),
      add_documents (fun _ => "u") 100 [] [⟨"c", [("pond", Val.str "A")]⟩]
        [[0]] = .ok ([] ++ newEntries, 1) ∧
      newEntries[0]? = some e ∧
      e.content = "c" ∧
      e.metadata = [("pond", Val.str "A")] ++
        [("doc_index", Val.int 0), ("content_length", Val.int 1)] :=
  add_documents_metadata_spec (fun _ => "u") 100 []
    [⟨"c", [("pond", Val.str "A")]⟩] [[0]] (by decide) rfl 0
    ⟨"c", [("pond", Val.str "A")]⟩ rfl (by decide) (by decide)

end ShrimpRag
